import Mathlib

/-!
# Verification of the castle-game simulation core

Shallow embedding of `src/main.rs` and `src/physics.rs` of the castle-game
repository, together with models of behaviour the spec attributes to parts
of the program outside those two files (the `specs` ECS scheduler contract
and the projectile integration step).  Floating-point arithmetic of the
source is modelled exactly over `ℚ`; Rust `as` casts are modelled with
their truncating/saturating semantics.
-/

namespace CastleGame

/-! ## The system dependency graph built in `main` (main.rs lines 165–191)

Each entry is `(name, predecessor names)` exactly as passed to
`DispatcherBuilder::add`, in registration order. -/

def systems : List (String × List String) :=
  [ ("projectile", []),
    ("arrow", ["projectile"]),
    ("projectile_collision", ["projectile"]),
    ("projectile_removal_from_mask", ["projectile"]),
    ("terrain_collapse", ["projectile"]),
    ("walk", []),
    ("unit_fall", ["walk"]),
    ("unit_resume_walking", ["walk"]),
    ("unit_collide", ["walk"]),
    ("melee", ["walk"]),
    ("health_bar", ["walk"]),
    ("turret_unit", ["walk"]),
    ("turret", ["turret_unit"]),
    ("sprite", ["projectile", "walk"]),
    ("anim", ["projectile", "walk"]),
    ("particle", []),
    ("floating_text", []) ]

/-- The registered system names, in registration order. -/
def systemNames : List String := systems.map Prod.fst

/-- Rank of a system name: its index in registration order. -/
def rankOf (name : String) : ℕ := systemNames.indexOf name

/-- The registration order is a topological order: every declared
predecessor of a system has a strictly smaller rank. -/
def topoOrderedB : Bool :=
  systems.all fun s => s.2.all fun d => rankOf d < rankOf s.1

/-- Every declared predecessor name is the name of a registered system. -/
def depsRegisteredB : Bool :=
  systems.all fun s => s.2.all fun d => systemNames.contains d

/-- Each registered system name occurs exactly once in the dispatch order. -/
def eachSystemOnceB : Bool :=
  systems.all fun s => systemNames.count s.1 == 1

/-! ## The per-frame event trace of the game loop (main.rs lines 211–309)

One iteration of the `while` loop performs, in program order: the delta-time
update, mouse handling, `dispatcher.dispatch` (which runs every registered
system), `world.maintain`, the render block — in which every live
`TerrainMask` component is drawn into the `Terrain` resource
(`draw_mask_terrain`) and its entity lazily deleted — then the GUI update
and the window update.  `Ev` records these observable events; `frameEvents`
is the event list of one loop iteration, parametrised by the entity ids of
the `TerrainMask` components that are live when the render block runs. -/

inductive Ev where
  | updateDelta : Ev
  | handleMouse : Ev
  | sysRun (name : String) : Ev
  | maintain : Ev
  | renderTerrain : Ev
  | applyMask (id : ℕ) : Ev
  | queueDelete (id : ℕ) : Ev
  | guiUpdate : Ev
  | windowUpdate : Ev
deriving DecidableEq

/-- The events of `dispatcher.dispatch`: every registered system runs, in
registration order.  Modelled from the spec: the `specs` dispatcher
(external to the two source files) executes each system of the graph
exactly once per `dispatch()` call, in a topological order of the declared
dependencies; the sequential registration order is such an order. -/
def dispatchEvents : List Ev := systemNames.map Ev.sysRun

/-- Events of the render block for one live `TerrainMask` entity:
`draw_mask_terrain` applies the mask to the `Terrain` resource, then the
entity's deletion is queued (`world.entities().delete`, lazy). -/
def maskEvents (liveMasks : List ℕ) : List Ev :=
  liveMasks.flatMap fun i => [Ev.applyMask i, Ev.queueDelete i]

/-- The full event list of one game-loop iteration, in program order. -/
def frameEvents (liveMasks : List ℕ) : List Ev :=
  [Ev.updateDelta, Ev.handleMouse] ++ dispatchEvents ++ [Ev.maintain, Ev.renderTerrain]
    ++ maskEvents liveMasks ++ [Ev.guiUpdate, Ev.windowUpdate]

def isSysRunEv : Ev → Bool
  | .sysRun _ => true
  | _ => false

def isCarveEv : Ev → Bool
  | .applyMask _ => true
  | _ => false

def isCollapseRunEv : Ev → Bool
  | .sysRun n => n == "terrain_collapse"
  | _ => false

/-- Every carve event of the list is followed, strictly later in the list,
by a run of the `terrain_collapse` system. -/
def everyCarveFollowedByCollapse : List Ev → Bool
  | [] => true
  | e :: rest =>
    (if isCarveEv e then rest.any isCollapseRunEv else true)
      && everyCarveFollowedByCollapse rest

/-- No run of the `terrain_collapse` system occurs strictly later in the
list than any carve event. -/
def noCollapseAfterCarve : List Ev → Bool
  | [] => true
  | e :: rest =>
    (if isCarveEv e then !(rest.any isCollapseRunEv) else true)
      && noCollapseAfterCarve rest

/-- Every carve event of `l` is followed by a collapse run in `l ++ rest`. -/
def carvesFollowedBy : List Ev → List Ev → Bool
  | [], _ => true
  | e :: t, rest =>
    (if isCarveEv e then (t ++ rest).any isCollapseRunEv else true)
      && carvesFollowedBy t rest

/-- After the first `maintain` event of the list, no system runs. -/
def noSysRunAfterMaintain : List Ev → Bool
  | [] => true
  | e :: rest =>
    (if e == Ev.maintain then !(rest.any isSysRunEv) else true)
      && noSysRunAfterMaintain rest

/-! ## Deferred entity mutation (dispatch / `world.maintain`)

Modelled from the spec: the entity store of the `specs` crate is external
to the two source files.  Systems never mutate the live entity set during
`dispatch`; they enqueue creation/destruction intents through `LazyUpdate`,
and `world.maintain` (main.rs line 230) drains the queue and applies every
queued intent, in order, in one step. -/

inductive EOp where
  | create (id : ℕ) : EOp
  | delete (id : ℕ) : EOp
deriving DecidableEq

/-- Apply one entity operation to the live entity-id set. -/
def applyOp (alive : List ℕ) : EOp → List ℕ
  | .create i => alive ++ [i]
  | .delete i => alive.filter fun e => e ≠ i

structure EcsWorld where
  alive : List ℕ
  queued : List EOp
deriving DecidableEq

/-- `dispatcher.dispatch`: the systems of the frame enqueue their entity
operations; the live entity set is untouched. -/
def dispatchW (ops : List EOp) (w : EcsWorld) : EcsWorld :=
  { alive := w.alive, queued := w.queued ++ ops }

/-- `world.maintain`: every queued operation is applied, in order, and the
queue is emptied. -/
def maintainW (w : EcsWorld) : EcsWorld :=
  { alive := w.queued.foldl applyOp w.alive, queued := [] }

/-- One frame of the entity store: dispatch enqueues, then maintain
applies (main.rs lines 227–230; render and GUI follow but the next
dispatch only happens on the next iteration). -/
def frameW (ops : List EOp) (w : EcsWorld) : EcsWorld :=
  maintainW (dispatchW ops w)

/-! ## TerrainMask consumption (main.rs lines 272–279)

Per frame: `dispatch` may spawn new `TerrainMask` entities (applied to the
live set at this frame's `maintain` together with the deletions queued by
the previous frame's render block); the render block then draws every live
mask into the `Terrain` resource and queues the deletion of its entity.
`appliedLog` records, in order, every (entity id, application) of a mask
to the terrain. -/

structure MaskState where
  liveMasks : List ℕ
  queuedDeletes : List ℕ
  appliedLog : List ℕ
deriving DecidableEq

def MaskState.init : MaskState := ⟨[], [], []⟩

/-- One game-loop iteration acting on the mask state.  `spawned` is the
list of `TerrainMask` entity ids created lazily during this frame's
dispatch. -/
def maskFrame (spawned : List ℕ) (s : MaskState) : MaskState :=
  let liveAfterMaintain :=
    (s.liveMasks.filter fun e => ¬ s.queuedDeletes.contains e) ++ spawned
  { liveMasks := liveAfterMaintain
    queuedDeletes := liveAfterMaintain
    appliedLog := s.appliedLog ++ liveAfterMaintain }

/-- Run the game loop for the given per-frame spawn lists. -/
def maskRun (spawns : List (List ℕ)) : MaskState :=
  spawns.foldl (fun s sp => maskFrame sp s) MaskState.init

/-! ## Shared resources written by the game loop (main.rs lines 152–155,
211–309)

`main` registers the `Gravity`, `DeltaTime`, `Terrain` and `Images`
resources once at startup.  Each loop iteration rewrites `DeltaTime`
(line 215) and the terrain is carved in the render block (line 274);
nothing in the loop writes `Gravity`.  `gravityWrites` counts the
assignments to the `Gravity` resource. -/

structure ResState where
  gravity : ℚ
  gravityWrites : ℕ
  deltaMs : ℕ
  carveCount : ℕ
deriving DecidableEq

/-- `GRAVITY` (main.rs line 45), modelled exactly over `ℚ`. -/
def GRAVITY : ℚ := 981 / 10

/-- The resource state after the startup registrations:
`world.add_resource(Gravity(GRAVITY))` and
`world.add_resource(DeltaTime::new(1.0 / 60.0))`. -/
def ResState.init : ResState :=
  { gravity := GRAVITY, gravityWrites := 1, deltaMs := 16, carveCount := 0 }

/-- One loop iteration acting on the shared resources: the delta-time
resource is overwritten with the measured elapsed milliseconds, and the
render block applies `nCarves` mask carves to the terrain. -/
def resFrame (elapsedMs : ℕ) (nCarves : ℕ) (s : ResState) : ResState :=
  { gravity := s.gravity
    gravityWrites := s.gravityWrites
    deltaMs := elapsedMs
    carveCount := s.carveCount + nCarves }

/-- Run the game loop over a list of per-frame inputs. -/
def resRun (frames : List (ℕ × ℕ)) : ResState :=
  frames.foldl (fun s f => resFrame f.1 f.2 s) ResState.init

/-! ## physics.rs

`f64` values are modelled as an exact rational together with the three
non-finite shapes a Rust `f64` can take (NaN, +∞, −∞); finite-float
arithmetic is modelled exactly over `ℚ`. -/

inductive F64 where
  | finite (q : ℚ) : F64
  | nan : F64
  | posInf : F64
  | negInf : F64
deriving DecidableEq

def i32min : ℤ := -(2 ^ 31)

def i32max : ℤ := 2 ^ 31 - 1

def u64max : ℕ := 2 ^ 64 - 1

/-- Truncation toward zero of a rational. -/
def truncQ (q : ℚ) : ℤ := if 0 ≤ q then ⌊q⌋ else ⌈q⌉

/-- Rust `as i32` on an `f64`: truncate toward zero, saturate at the `i32`
bounds, `NaN` maps to 0 (Rust reference, saturating float-to-int casts). -/
def f64_as_i32 : F64 → ℤ
  | .nan => 0
  | .posInf => i32max
  | .negInf => i32min
  | .finite q =>
    if truncQ q < i32min then i32min
    else if i32max < truncQ q then i32max
    else truncQ q

/-- Rust `as u64` on an `f64`: truncate toward zero, saturate at 0 and
`u64::MAX`, `NaN` maps to 0. -/
def f64_as_u64 : F64 → ℕ
  | .nan => 0
  | .posInf => u64max
  | .negInf => 0
  | .finite q =>
    if truncQ q < 0 then 0
    else if (u64max : ℤ) < truncQ q then u64max
    else (truncQ q).toNat

/-- `Position` (physics.rs lines 3–7). -/
structure Position where
  x : F64
  y : F64
deriving DecidableEq

def Position.new (x y : F64) : Position := ⟨x, y⟩

/-- `Position::as_i32` (physics.rs lines 14–16): `(self.x as i32, self.y as i32)`. -/
def Position.as_i32 (p : Position) : ℤ × ℤ := (f64_as_i32 p.x, f64_as_i32 p.y)

/-- `Velocity` (physics.rs lines 19–23). -/
structure Velocity where
  x : F64
  y : F64
deriving DecidableEq

/-- `std::time::Duration`: seconds plus sub-second nanoseconds. -/
structure Duration where
  secs : ℕ
  subsec_nanos : ℕ
deriving DecidableEq

/-- `Duration::from_millis`. -/
def Duration.from_millis (ms : ℕ) : Duration :=
  ⟨ms / 1000, (ms % 1000) * 1000000⟩

/-- `DeltaTime` (physics.rs line 31). -/
structure DeltaTime where
  dur : Duration
deriving DecidableEq

/-- `DeltaTime::new` (physics.rs lines 34–36):
`DeltaTime(Duration::from_millis((time * 1000.0) as u64))`. -/
def DeltaTime.new (time : ℚ) : DeltaTime :=
  ⟨Duration.from_millis (f64_as_u64 (.finite (time * 1000)))⟩

/-- `DeltaTime::to_seconds` (physics.rs lines 38–40):
`self.0.as_secs() as f64 + self.0.subsec_nanos() as f64 * 1e-9`,
modelled exactly over `ℚ`. -/
def DeltaTime.to_seconds (d : DeltaTime) : ℚ :=
  (d.dur.secs : ℚ) + (d.dur.subsec_nanos : ℚ) * (1 / 1000000000)

/-! ## Ballistic integration

Modelled from the spec: the projectile system (projectile.rs, outside the
two available source files) integrates by semi-implicit Euler —
`velocity += gravity * dt; position += velocity * dt` — with the
`Gravity` resource set to `GRAVITY = 98.1` and dt = 1/60.  The vertical
component suffices for the displacement claim; arithmetic is exact
over `ℚ`. -/

structure BallisticState where
  y : ℚ
  vy : ℚ
deriving DecidableEq

/-- One semi-implicit Euler step. -/
def eulerStep (g dt : ℚ) (s : BallisticState) : BallisticState :=
  let vy := s.vy + g * dt
  { y := s.y + vy * dt, vy := vy }

/-- `n` integration steps from rest at the origin. -/
def ballistic (g dt : ℚ) : ℕ → BallisticState
  | 0 => ⟨0, 0⟩
  | n + 1 => eulerStep g dt (ballistic g dt n)

/-- The exact closed-form displacement `0.5 * g * t²` at `t = n * dt`. -/
def exactDisplacement (g dt : ℚ) (n : ℕ) : ℚ := g * (n * dt) ^ 2 / 2

/-! ## Asset loading at startup (main.rs lines 47–87)

`SpriteFolder::get` / `MaskFolder::get` (the `RustEmbed` derive) return the
embedded file's bytes or `None`; `.unwrap()` on `None` aborts the process,
modelled as `Except.error`.  `Render::add_buf_from_memory` /
`add_anim_buf_from_memory` (draw.rs, outside the available source files)
return a handle for the decoded buffer; they are abstracted as a function
from name and bytes to a handle.  The `HashMap<String, usize>` resources
map is modelled as an association list whose `insert` replaces any
existing binding of the key. -/

abbrev Bytes := List ℕ

abbrev ResourceMap := List (String × ℕ)

/-- `HashMap::insert`: any previous binding of `k` is replaced. -/
def insertRes (m : ResourceMap) (k : String) (v : ℕ) : ResourceMap :=
  (m.filter fun p => p.1 ≠ k) ++ [(k, v)]

/-- Number of bindings of key `k` in the map. -/
def keyCount (m : ResourceMap) (k : String) : ℕ :=
  (m.filter fun p => p.1 = k).length

/-- `SpriteFolder::load_sprite` (main.rs lines 52–59): appends `".blit"`
to the name, `get`s the embedded file, unwraps (process abort on a missing
file), and inserts the handle under the plain name. -/
def SpriteFolder.load_sprite (get : String → Option Bytes)
    (add_buf_from_memory : String → Bytes → ℕ) (resources : ResourceMap)
    (name : String) : Except Unit ResourceMap :=
  let file := name ++ ".blit"
  match get file with
  | none => .error ()
  | some buf => .ok (insertRes resources name (add_buf_from_memory name buf))

/-- `SpriteFolder::load_anim` (main.rs lines 61–71): as `load_sprite` but
with the `".anim"` extension and the animation decoder. -/
def SpriteFolder.load_anim (get : String → Option Bytes)
    (add_anim_buf_from_memory : String → Bytes → ℕ) (resources : ResourceMap)
    (name : String) : Except Unit ResourceMap :=
  let file := name ++ ".anim"
  match get file with
  | none => .error ()
  | some buf => .ok (insertRes resources name (add_anim_buf_from_memory name buf))

/-- `MaskFolder::load_sprite` (main.rs lines 79–87): as
`SpriteFolder::load_sprite` but over the embedded mask folder. -/
def MaskFolder.load_sprite (get : String → Option Bytes)
    (add_buf_from_memory : String → Bytes → ℕ) (resources : ResourceMap)
    (name : String) : Except Unit ResourceMap :=
  let file := name ++ ".blit"
  match get file with
  | none => .error ()
  | some buf => .ok (insertRes resources name (add_buf_from_memory name buf))

/-! ## Helper lemmas -/

theorem filter_sysRun_maskEvents (ms : List ℕ) :
    (maskEvents ms).filter isSysRunEv = [] := by
  induction ms with
  | nil => rfl
  | cons a t ih =>
    simp only [maskEvents, List.flatMap_cons, List.filter_append] at *
    simpa [isSysRunEv] using ih

theorem any_collapse_maskEvents (ms : List ℕ) :
    (maskEvents ms).any isCollapseRunEv = false := by
  induction ms with
  | nil => rfl
  | cons a t ih =>
    simp only [maskEvents, List.flatMap_cons, List.any_append] at *
    simp [isCollapseRunEv, ih]

theorem any_sysRun_maskEvents (ms : List ℕ) :
    (maskEvents ms).any isSysRunEv = false := by
  induction ms with
  | nil => rfl
  | cons a t ih =>
    simp only [maskEvents, List.flatMap_cons, List.any_append] at *
    simp [isSysRunEv, ih]

theorem count_maintain_maskEvents (ms : List ℕ) :
    (maskEvents ms).count Ev.maintain = 0 := by
  induction ms with
  | nil => rfl
  | cons a t ih =>
    simp only [maskEvents, List.flatMap_cons] at *
    rw [List.count_append]
    simpa using ih

theorem count_collapse_maskEvents (ms : List ℕ) :
    (maskEvents ms).count (Ev.sysRun "terrain_collapse") = 0 := by
  induction ms with
  | nil => rfl
  | cons a t ih =>
    simp only [maskEvents, List.flatMap_cons] at *
    rw [List.count_append]
    simpa using ih

theorem noSysRunAfterMaintain_of_no_sysRun :
    ∀ l : List Ev, l.any isSysRunEv = false → noSysRunAfterMaintain l = true
  | [], _ => rfl
  | e :: rest, h => by
    simp only [List.any_cons, Bool.or_eq_false_iff] at h
    simp [noSysRunAfterMaintain, h.2,
      noSysRunAfterMaintain_of_no_sysRun rest h.2]

theorem noSysRunAfterMaintain_append (l1 l2 : List Ev)
    (h : l1.all (fun e => !(e == Ev.maintain)) = true) :
    noSysRunAfterMaintain (l1 ++ l2) = noSysRunAfterMaintain l2 := by
  induction l1 with
  | nil => rfl
  | cons e t ih =>
    simp only [List.all_cons, Bool.and_eq_true, Bool.not_eq_true'] at h
    simp [List.cons_append, noSysRunAfterMaintain, h.1, ih h.2]

theorem noCollapseAfterCarve_of_no_collapse :
    ∀ l : List Ev, l.any isCollapseRunEv = false → noCollapseAfterCarve l = true
  | [], _ => rfl
  | e :: rest, h => by
    simp only [List.any_cons, Bool.or_eq_false_iff] at h
    simp [noCollapseAfterCarve, h.2,
      noCollapseAfterCarve_of_no_collapse rest h.2]

theorem noCollapseAfterCarve_append (l1 l2 : List Ev)
    (h : l1.all (fun e => !(isCarveEv e)) = true) :
    noCollapseAfterCarve (l1 ++ l2) = noCollapseAfterCarve l2 := by
  induction l1 with
  | nil => rfl
  | cons e t ih =>
    simp only [List.all_cons, Bool.and_eq_true, Bool.not_eq_true'] at h
    simp [List.cons_append, noCollapseAfterCarve, h.1, ih h.2]

theorem carvesFollowedBy_of_any (rest : List Ev)
    (h : rest.any isCollapseRunEv = true) :
    ∀ l : List Ev, carvesFollowedBy l rest = true
  | [] => rfl
  | e :: t => by
    simp [carvesFollowedBy, List.any_append, h,
      carvesFollowedBy_of_any rest h t]

theorem filter_sysRun_map (names : List String) :
    (names.map Ev.sysRun).filter isSysRunEv = names.map Ev.sysRun := by
  induction names with
  | nil => rfl
  | cons a t ih => simp [isSysRunEv, ih]

/-! ## Claim theorems -/

/-- C6: the system dependency graph built in `main` is well formed: the
registration order is a topological order (every declared predecessor has a
strictly smaller rank, which witnesses acyclicity), every referenced
predecessor name — in particular "projectile", "walk" and "turret_unit" —
is the name of a registered system, and no two systems share a name, so
`DispatcherBuilder::build` never hits its construction-time fatal error. -/
theorem dispatcher_graph_well_formed :
    topoOrderedB = true ∧ depsRegisteredB = true ∧ systemNames.Nodup ∧
      "projectile" ∈ systemNames ∧ "walk" ∈ systemNames ∧
      "turret_unit" ∈ systemNames := by
  refine ⟨by decide, by decide, by decide, by decide, by decide, by decide⟩

/-- C1: per frame, `dispatcher.dispatch` runs exactly the registered
systems — the system-run events of any frame's trace are precisely
`dispatchEvents` — each registered system exactly once, in an order in
which every system's declared predecessors have completed (strictly
smaller rank) before it begins. -/
theorem dispatch_runs_each_system_once_topologically :
    (∀ liveMasks : List ℕ,
        (frameEvents liveMasks).filter isSysRunEv = dispatchEvents) ∧
      eachSystemOnceB = true ∧ topoOrderedB = true := by
  refine ⟨fun ms => ?_, by decide, by decide⟩
  simp only [frameEvents, List.filter_append, filter_sysRun_maskEvents,
    dispatchEvents, filter_sysRun_map]
  decide

/-- C2: in every frame, exactly one `world.maintain` event occurs and no
system runs after it until the frame ends (so the next frame's systems
start only after it); `dispatch` itself leaves the live entity set
untouched, and the frame's maintain step applies every queued entity
creation/destruction leaving an empty queue — no system observes a
partially applied entity mutation mid-frame. -/
theorem maintain_is_post_dispatch_barrier :
    (∀ ms : List ℕ, (frameEvents ms).count Ev.maintain = 1 ∧
        noSysRunAfterMaintain (frameEvents ms) = true) ∧
      (∀ (ops : List EOp) (w : EcsWorld), (dispatchW ops w).alive = w.alive) ∧
      (∀ (ops : List EOp) (w : EcsWorld),
        (frameW ops w).queued = [] ∧
          (frameW ops w).alive = (w.queued ++ ops).foldl applyOp w.alive) := by
  refine ⟨fun ms => ⟨?_, ?_⟩, fun ops w => rfl, fun ops w => ⟨rfl, rfl⟩⟩
  · simp only [frameEvents, List.count_append, count_maintain_maskEvents]
    decide
  · simp only [frameEvents, List.append_assoc]
    rw [noSysRunAfterMaintain_append [Ev.updateDelta, Ev.handleMouse] _ (by decide),
      noSysRunAfterMaintain_append dispatchEvents _ (by decide)]
    simp only [List.cons_append, List.nil_append, noSysRunAfterMaintain,
      List.any_cons, List.any_append, any_sysRun_maskEvents]
    simp [isSysRunEv,
      noSysRunAfterMaintain_of_no_sysRun
        (maskEvents ms ++ [Ev.guiUpdate, Ev.windowUpdate])
        (by simp [List.any_append, any_sysRun_maskEvents, isSysRunEv])]
    intro x hx
    have h := any_sysRun_maskEvents ms
    rw [List.any_eq_false] at h
    simpa [isSysRunEv] using h x hx

/-- C3 counterexample: a frame in which a carve of the terrain mask is
applied (the render block draws mask entity 0 into the terrain) but the
`terrain_collapse` system does not execute after that carve within the
frame — it ran earlier, during `dispatcher.dispatch`. -/
theorem carve_frame_without_later_collapse :
    (frameEvents [0]).any isCarveEv = true ∧
      everyCarveFollowedByCollapse (frameEvents [0]) = false := by
  refine ⟨by decide, by decide⟩

/-- C3 amended: in every frame the `terrain_collapse` system runs exactly
once, during dispatch, and therefore before — never after — any carve
applied in that frame's render block; a carve applied in one frame is
followed by the collapse run of the next frame, which is when the collapse
pass first observes the carved mask. -/
theorem collapse_runs_before_carve_and_observes_it_next_frame :
    (∀ ms : List ℕ, noCollapseAfterCarve (frameEvents ms) = true ∧
        (frameEvents ms).count (Ev.sysRun "terrain_collapse") = 1) ∧
      (∀ ms1 ms2 : List ℕ,
        carvesFollowedBy (frameEvents ms1) (frameEvents ms2) = true) := by
  refine ⟨fun ms => ⟨?_, ?_⟩, fun ms1 ms2 => ?_⟩
  · simp only [frameEvents, List.append_assoc]
    rw [noCollapseAfterCarve_append [Ev.updateDelta, Ev.handleMouse] _ (by decide),
      noCollapseAfterCarve_append dispatchEvents _ (by decide),
      noCollapseAfterCarve_append [Ev.maintain, Ev.renderTerrain] _ (by decide)]
    exact noCollapseAfterCarve_of_no_collapse _
      (by simp [List.any_append, any_collapse_maskEvents, isCollapseRunEv])
  · simp only [frameEvents, List.count_append, count_collapse_maskEvents]
    decide
  · refine carvesFollowedBy_of_any _ ?_ _
    simp only [frameEvents, List.any_append, any_collapse_maskEvents]
    decide

theorem resRun_preserves_gravity :
    ∀ (frames : List (ℕ × ℕ)) (s : ResState),
      (frames.foldl (fun s f => resFrame f.1 f.2 s) s).gravity = s.gravity ∧
        (frames.foldl (fun s f => resFrame f.1 f.2 s) s).gravityWrites
          = s.gravityWrites
  | [], _ => ⟨rfl, rfl⟩
  | f :: rest, s => resRun_preserves_gravity rest (resFrame f.1 f.2 s)

/-- C8: the `Gravity` resource is registered exactly once at startup with
the constant `GRAVITY = 98.1` and is never reassigned by any number of
game-loop iterations: after any run, its value is still `98.1` and the
write count is still the single startup registration. -/
theorem gravity_registered_once_never_reassigned :
    ResState.init.gravity = GRAVITY ∧ GRAVITY = 981 / 10 ∧
      (∀ frames : List (ℕ × ℕ),
        (resRun frames).gravity = GRAVITY ∧
          (resRun frames).gravityWrites = 1) := by
  refine ⟨rfl, rfl, fun frames => ?_⟩
  have h := resRun_preserves_gravity frames ResState.init
  exact ⟨h.1, h.2⟩

theorem ballistic_closed_form (g dt : ℚ) :
    ∀ n : ℕ, (ballistic g dt n).vy = g * dt * n ∧
      (ballistic g dt n).y = g * dt ^ 2 * (n * (n + 1)) / 2
  | 0 => by simp [ballistic]
  | n + 1 => by
    obtain ⟨hv, hy⟩ := ballistic_closed_form g dt n
    simp only [ballistic, eulerStep, hv, hy]
    constructor
    · push_cast
      ring
    · push_cast
      ring

/-- C5: from rest at the origin with gravity 98.1 and dt = 1/60, `n` steps
of the semi-implicit Euler integration give vertical displacement
`g·dt²·n(n+1)/2`; the deviation from the exact closed form `0.5·g·t²`
(at `t = n·dt`) is exactly the first-order discretization term
`(g/2)·dt·t`, in particular bounded by it, and for `n ≥ 1` the computed
displacement never equals the exact closed form. -/
theorem ballistic_approximates_with_euler_error (n : ℕ) :
    (ballistic GRAVITY (1/60) n).y = GRAVITY * (1/60) ^ 2 * (n * (n + 1)) / 2 ∧
      (ballistic GRAVITY (1/60) n).y - exactDisplacement GRAVITY (1/60) n
        = GRAVITY / 2 * (1/60) * (n * (1/60)) ∧
      |(ballistic GRAVITY (1/60) n).y - exactDisplacement GRAVITY (1/60) n|
        ≤ GRAVITY / 2 * (1/60) * (n * (1/60)) ∧
      (1 ≤ n → (ballistic GRAVITY (1/60) n).y
        ≠ exactDisplacement GRAVITY (1/60) n) := by
  obtain ⟨-, hy⟩ := ballistic_closed_form GRAVITY (1/60) n
  have herr : (ballistic GRAVITY (1/60) n).y
      - exactDisplacement GRAVITY (1/60) n
      = GRAVITY / 2 * (1/60) * (n * (1/60)) := by
    rw [hy, exactDisplacement]
    ring
  refine ⟨hy, herr, ?_, ?_⟩
  · rw [herr, abs_of_nonneg]
    simp only [GRAVITY]
    positivity
  · intro hn heq
    have hpos : (0 : ℚ) < GRAVITY / 2 * (1/60) * (n * (1/60)) := by
      have h1 : (1 : ℚ) ≤ (n : ℚ) := by exact_mod_cast hn
      have : (0 : ℚ) < (n : ℚ) := lt_of_lt_of_le one_pos h1
      simp only [GRAVITY]
      positivity
    rw [heq, sub_self] at herr
    exact absurd herr.symm (ne_of_gt hpos)

/-- C5 witness: the hypothesis `1 ≤ n` holds at `n = 3`, where the
computed displacement differs from the exact closed form. -/
theorem ballistic_approximates_witness :
    (1 : ℕ) ≤ 3 ∧ (ballistic GRAVITY (1/60) 3).y
      ≠ exactDisplacement GRAVITY (1/60) 3 :=
  ⟨by decide, (ballistic_approximates_with_euler_error 3).2.2.2 (by decide)⟩

theorem filter_not_contains_self (l : List ℕ) :
    (l.filter fun e => ¬ l.contains e) = [] := by
  rw [List.filter_eq_nil_iff]
  intro a ha
  simp [ha]

theorem maskRun_invariant :
    ∀ (spawns : List (List ℕ)) (s : MaskState) (seen : List ℕ),
      (seen ++ spawns.flatten).Nodup →
      s.queuedDeletes = s.liveMasks →
      s.appliedLog.Nodup →
      (∀ e ∈ s.appliedLog, e ∈ seen) →
      ((spawns.foldl (fun t sp => maskFrame sp t) s).appliedLog.Nodup ∧
        (spawns.foldl (fun t sp => maskFrame sp t) s).queuedDeletes
          = (spawns.foldl (fun t sp => maskFrame sp t) s).liveMasks ∧
        ∀ e ∈ (spawns.foldl (fun t sp => maskFrame sp t) s).appliedLog,
          e ∈ seen ++ spawns.flatten)
  | [], s, seen, _, h2, h3, h4 => by
    refine ⟨h3, h2, fun e he => ?_⟩
    simpa using h4 e he
  | sp :: rest, s, seen, h1, h2, h3, h4 => by
    have hlive : (maskFrame sp s).liveMasks = sp := by
      simp [maskFrame, h2, filter_not_contains_self]
    have hq : (maskFrame sp s).queuedDeletes = (maskFrame sp s).liveMasks := rfl
    have hlog : (maskFrame sp s).appliedLog = s.appliedLog ++ sp := by
      simp [maskFrame, h2, filter_not_contains_self]
    rw [List.flatten_cons, ← List.append_assoc] at h1
    have hseensp : (seen ++ sp).Nodup := h1.of_append_left
    have hspnd : sp.Nodup := hseensp.of_append_right
    have hdisj : seen.Disjoint sp := List.disjoint_of_nodup_append hseensp
    have h3' : (maskFrame sp s).appliedLog.Nodup := by
      rw [hlog, List.nodup_append]
      exact ⟨h3, hspnd, fun e he => fun hesp => hdisj (h4 e he) hesp⟩
    have h4' : ∀ e ∈ (maskFrame sp s).appliedLog, e ∈ seen ++ sp := by
      rw [hlog]
      intro e he
      rcases List.mem_append.mp he with h | h
      · exact List.mem_append.mpr (Or.inl (h4 e h))
      · exact List.mem_append.mpr (Or.inr h)
    have ih := maskRun_invariant rest (maskFrame sp s) (seen ++ sp) h1 hq h3' h4'
    rw [List.foldl_cons]
    refine ⟨ih.1, ih.2.1, fun e he => ?_⟩
    have := ih.2.2 e he
    rw [List.flatten_cons, ← List.append_assoc]
    exact this

/-- C4: along any run of the game loop in which the `TerrainMask` entities
spawned across frames are pairwise distinct, the terrain-application log
contains each mask entity at most once — a mask drawn into the terrain is
never applied again in any later frame — every applied mask's entity has
its deletion queued, and by the next frame's maintain step only the newly
spawned masks are live (the consumed entities are destroyed). -/
theorem terrain_mask_consumed_at_most_once (spawns : List (List ℕ))
    (h : spawns.flatten.Nodup) :
    (maskRun spawns).appliedLog.Nodup ∧
      (maskRun spawns).queuedDeletes = (maskRun spawns).liveMasks ∧
      (∀ sp : List ℕ, (maskFrame sp (maskRun spawns)).liveMasks = sp) := by
  have inv := maskRun_invariant spawns MaskState.init []
    (by simpa using h) rfl (by simp [MaskState.init]) (by simp [MaskState.init])
  refine ⟨inv.1, inv.2.1, fun sp => ?_⟩
  have hqd : (maskRun spawns).queuedDeletes = (maskRun spawns).liveMasks := inv.2.1
  show ((maskRun spawns).liveMasks.filter
      fun e => ¬ (maskRun spawns).queuedDeletes.contains e) ++ sp = sp
  rw [hqd, filter_not_contains_self, List.nil_append]

/-- C4 witness: a concrete two-frame run with distinct spawned mask
entities; the application log is duplicate-free. -/
theorem terrain_mask_consumed_witness :
    ([[1, 2], [3]] : List (List ℕ)).flatten.Nodup ∧
      (maskRun [[1, 2], [3]]).appliedLog.Nodup :=
  ⟨by decide, (terrain_mask_consumed_at_most_once [[1, 2], [3]] (by decide)).1⟩

theorem to_seconds_from_millis (m : ℕ) :
    DeltaTime.to_seconds ⟨Duration.from_millis m⟩ = (m : ℚ) / 1000 := by
  simp only [DeltaTime.to_seconds, Duration.from_millis]
  rw [eq_div_iff (by norm_num : (1000 : ℚ) ≠ 0)]
  conv_rhs => rw [show ((m : ℕ) : ℚ) = ((1000 * (m / 1000) + m % 1000 : ℕ) : ℚ)
    from by rw [Nat.div_add_mod]]
  push_cast
  ring

/-- C9 counterexample: `t = 2^64` is a finite non-negative `f64` value,
yet `DeltaTime::new(t).to_seconds()` is not `floor(t * 1000) / 1000`: the
`as u64` cast saturates at `u64::MAX` milliseconds. -/
theorem delta_time_roundtrip_counterexample :
    (0 : ℚ) ≤ 2 ^ 64 ∧
      DeltaTime.to_seconds (DeltaTime.new (2 ^ 64))
        ≠ (⌊(2 ^ 64 : ℚ) * 1000⌋ : ℚ) / 1000 := by
  constructor
  · norm_num
  · have hfl : truncQ ((2 ^ 64 : ℚ) * 1000) = 18446744073709551616000 := by
      norm_num [truncQ]
    have hm : f64_as_u64 (.finite ((2 ^ 64 : ℚ) * 1000)) = u64max := by
      simp only [f64_as_u64]
      rw [hfl]
      norm_num [u64max]
    rw [show DeltaTime.new (2 ^ 64)
        = ⟨Duration.from_millis (f64_as_u64 (.finite ((2 ^ 64 : ℚ) * 1000)))⟩
        from rfl, hm, to_seconds_from_millis]
    rw [show ⌊(2 ^ 64 : ℚ) * 1000⌋ = 18446744073709551616000 by norm_num]
    norm_num [u64max]

/-- C9 amended: for every finite non-negative `f64` value `t` below the
`u64` saturation threshold (`t * 1000 < 2^64`), construction truncates to
whole milliseconds: `DeltaTime::new(t).to_seconds()` equals
`floor(t * 1000) / 1000` rather than `t`; at and above the threshold the
cast saturates to `u64::MAX` milliseconds.  In particular the initial
resource `DeltaTime::new(1.0/60.0)` reads back as `0.016` seconds, not
`1/60`. -/
theorem delta_time_truncates_to_millis (t : ℚ) (h0 : 0 ≤ t)
    (h1 : t * 1000 < 2 ^ 64) :
    DeltaTime.to_seconds (DeltaTime.new t) = (⌊t * 1000⌋ : ℚ) / 1000 ∧
      DeltaTime.to_seconds (DeltaTime.new (1/60)) = 16 / 1000 ∧
      DeltaTime.to_seconds (DeltaTime.new (1/60)) ≠ 1 / 60 := by
  have main : ∀ u : ℚ, 0 ≤ u → u * 1000 < 2 ^ 64 →
      DeltaTime.to_seconds (DeltaTime.new u) = (⌊u * 1000⌋ : ℚ) / 1000 := by
    intro u hu0 hu1
    have hq0 : (0 : ℚ) ≤ u * 1000 := by positivity
    have ht : truncQ (u * 1000) = ⌊u * 1000⌋ := if_pos hq0
    have hfl0 : 0 ≤ ⌊u * 1000⌋ := Int.floor_nonneg.mpr hq0
    have hflmax : ⌊u * 1000⌋ ≤ (u64max : ℤ) := by
      have : ⌊u * 1000⌋ < (2 : ℤ) ^ 64 := by
        rw [Int.floor_lt]
        exact_mod_cast hu1
      simp only [u64max]
      omega
    have hm : f64_as_u64 (.finite (u * 1000)) = ⌊u * 1000⌋.toNat := by
      simp only [f64_as_u64]
      rw [ht, if_neg (by omega), if_neg (by omega)]
    rw [show DeltaTime.new u
        = ⟨Duration.from_millis (f64_as_u64 (.finite (u * 1000)))⟩ from rfl,
      hm, to_seconds_from_millis]
    congr 1
    exact_mod_cast Int.toNat_of_nonneg hfl0
  refine ⟨main t h0 h1, ?_, ?_⟩
  · rw [main (1/60) (by norm_num) (by norm_num)]
    rw [show ⌊(1/60 : ℚ) * 1000⌋ = 16 by norm_num]
    norm_num
  · rw [main (1/60) (by norm_num) (by norm_num)]
    rw [show ⌊(1/60 : ℚ) * 1000⌋ = 16 by norm_num]
    norm_num

/-- C9 witness: the amended theorem applied at the concrete input
`t = 1/60`, whose hypotheses hold, yields the 16-millisecond read-back. -/
theorem delta_time_truncates_witness :
    ((0 : ℚ) ≤ 1/60 ∧ (1/60 : ℚ) * 1000 < 2 ^ 64) ∧
      DeltaTime.to_seconds (DeltaTime.new (1/60)) = (⌊(1/60 : ℚ) * 1000⌋ : ℚ) / 1000 :=
  ⟨⟨by norm_num, by norm_num⟩,
    (delta_time_truncates_to_millis (1/60) (by norm_num) (by norm_num)).1⟩

/-- C10: `Position::as_i32` is total — it is a function on all of
`Position`, including non-finite coordinates, evaluating both components
with the Rust `as i32` cast — and that cast truncates finite in-range
coordinates toward zero (so `-0.5` maps to `0`, not `-1`), saturates
values beyond the `i32` range at `i32::MIN` / `i32::MAX`, and maps `NaN`
to `0`. -/
theorem as_i32_total_truncates_saturates :
    (∀ p : Position, p.as_i32 = (f64_as_i32 p.x, f64_as_i32 p.y)) ∧
      f64_as_i32 (.finite (-1/2)) = 0 ∧
      (∀ q : ℚ, (i32min : ℚ) ≤ q → q ≤ (i32max : ℚ) →
        f64_as_i32 (.finite q) = truncQ q) ∧
      (∀ q : ℚ, (i32max : ℚ) < q → f64_as_i32 (.finite q) = i32max) ∧
      (∀ q : ℚ, q < (i32min : ℚ) → f64_as_i32 (.finite q) = i32min) ∧
      f64_as_i32 .nan = 0 ∧ f64_as_i32 .posInf = i32max ∧
      f64_as_i32 .negInf = i32min := by
  have hminmax : i32min < i32max := by simp only [i32min, i32max]; omega
  refine ⟨fun p => rfl, ?_, ?_, ?_, ?_, rfl, rfl, rfl⟩
  · have h : truncQ (-1/2 : ℚ) = 0 := by norm_num [truncQ]
    simp only [f64_as_i32]
    rw [h]
    rw [if_neg (by simp only [i32min]; omega), if_neg (by simp only [i32max]; omega)]
  · intro q hlo hhi
    have hb : i32min ≤ truncQ q ∧ truncQ q ≤ i32max := by
      unfold truncQ
      split_ifs with h
      · exact ⟨Int.le_floor.mpr hlo, by exact_mod_cast le_trans (Int.floor_le q) hhi⟩
      · exact ⟨by exact_mod_cast le_trans hlo (Int.le_ceil q), Int.ceil_le.mpr hhi⟩
    simp only [f64_as_i32]
    rw [if_neg (not_lt.mpr hb.1), if_neg (not_lt.mpr hb.2)]
  · intro q h
    have h0 : (0 : ℚ) ≤ q := by
      refine le_trans ?_ h.le
      simp only [i32max]
      norm_num
    have ht : truncQ q = ⌊q⌋ := if_pos h0
    have hfl : i32max ≤ truncQ q := by
      rw [ht]
      exact Int.le_floor.mpr h.le
    have hmin : ¬ truncQ q < i32min := not_lt.mpr (le_trans hminmax.le hfl)
    by_cases hmax : i32max < truncQ q
    · simp only [f64_as_i32]
      rw [if_neg hmin, if_pos hmax]
    · simp only [f64_as_i32]
      rw [if_neg hmin, if_neg hmax]
      exact le_antisymm (not_lt.mp hmax) hfl
  · intro q h
    have h0 : ¬ (0 : ℚ) ≤ q := by
      refine not_le.mpr (lt_of_lt_of_le h ?_)
      simp only [i32min]
      norm_num
    have ht : truncQ q = ⌈q⌉ := if_neg h0
    have hcl : truncQ q ≤ i32min := by
      rw [ht]
      exact Int.ceil_le.mpr h.le
    by_cases hlt : truncQ q < i32min
    · simp only [f64_as_i32]
      rw [if_pos hlt]
    · simp only [f64_as_i32]
      rw [if_neg hlt, if_neg (not_lt.mpr (le_trans hcl hminmax.le))]
      exact le_antisymm hcl (not_lt.mp hlt)

/-- C10 witness: the in-range clause applied at the concrete coordinate
`-1/2`, discharging its bounds, recovers the truncation-toward-zero
value, and the saturation clause applied at `2^40` yields `i32::MAX`. -/
theorem as_i32_truncates_witness :
    ((i32min : ℚ) ≤ -1/2 ∧ (-1/2 : ℚ) ≤ (i32max : ℚ) ∧ (i32max : ℚ) < 2 ^ 40) ∧
      f64_as_i32 (.finite (-1/2)) = truncQ (-1/2) ∧
      f64_as_i32 (.finite (2 ^ 40)) = i32max :=
  ⟨⟨by norm_num [i32min], by norm_num [i32max], by norm_num [i32max]⟩,
    as_i32_total_truncates_saturates.2.2.1 (-1/2)
      (by norm_num [i32min]) (by norm_num [i32max]),
    as_i32_total_truncates_saturates.2.2.2.1 (2 ^ 40) (by norm_num [i32max])⟩

theorem keyCount_insertRes (m : ResourceMap) (k : String) (v : ℕ) :
    keyCount (insertRes m k v) k = 1 := by
  unfold keyCount insertRes
  rw [List.filter_append]
  have h0 : ((m.filter fun p => p.1 ≠ k).filter fun p => p.1 = k) = [] := by
    rw [List.filter_eq_nil_iff]
    intro a ha
    have h := (List.mem_filter.mp ha).2
    simp only [decide_eq_true_eq] at h ⊢
    exact h
  rw [h0]
  simp

/-- C7: each startup loader either aborts on a missing embedded file or
inserts exactly one handle: when `get` returns `None` for the name with
the loader's extension, `SpriteFolder::load_sprite`,
`SpriteFolder::load_anim` and `MaskFolder::load_sprite` all abort the
process (`Except.error`, the model of the `unwrap` panic); when the file
is present, each returns the resources map with exactly one binding of
the asset's handle under the plain name.  No other outcome exists. -/
theorem asset_loaders_abort_or_insert_once (get : String → Option Bytes)
    (add : String → Bytes → ℕ) (res : ResourceMap) (name : String) :
    (get (name ++ ".blit") = none →
      SpriteFolder.load_sprite get add res name = .error () ∧
        MaskFolder.load_sprite get add res name = .error ()) ∧
      (get (name ++ ".anim") = none →
        SpriteFolder.load_anim get add res name = .error ()) ∧
      (∀ buf, get (name ++ ".blit") = some buf →
        SpriteFolder.load_sprite get add res name
            = .ok (insertRes res name (add name buf)) ∧
          MaskFolder.load_sprite get add res name
            = .ok (insertRes res name (add name buf)) ∧
          keyCount (insertRes res name (add name buf)) name = 1) ∧
      (∀ buf, get (name ++ ".anim") = some buf →
        SpriteFolder.load_anim get add res name
            = .ok (insertRes res name (add name buf)) ∧
          keyCount (insertRes res name (add name buf)) name = 1) := by
  refine ⟨fun h => ?_, fun h => ?_, fun buf h => ?_, fun buf h => ?_⟩
  · constructor
    · simp only [SpriteFolder.load_sprite, h]
    · simp only [MaskFolder.load_sprite, h]
  · simp only [SpriteFolder.load_anim, h]
  · refine ⟨?_, ?_, keyCount_insertRes res name (add name buf)⟩
    · simp only [SpriteFolder.load_sprite, h]
    · simp only [MaskFolder.load_sprite, h]
  · exact ⟨by simp only [SpriteFolder.load_anim, h], keyCount_insertRes res name (add name buf)⟩

/-- C7 witness: with a one-file embedded folder holding `"hole.blit"`,
loading `"hole"` succeeds and binds exactly one handle under `"hole"`,
while loading the absent animation `"hole.anim"` aborts. -/
theorem asset_loaders_witness :
    (fun f => if f = "hole.blit" then some ([7] : Bytes) else none)
        ("hole" ++ ".blit") = some [7] ∧
      SpriteFolder.load_sprite
          (fun f => if f = "hole.blit" then some ([7] : Bytes) else none)
          (fun _ _ => 42) [] "hole"
        = .ok (insertRes [] "hole" 42) ∧
      keyCount (insertRes [] "hole" 42) "hole" = 1 ∧
      SpriteFolder.load_anim
          (fun f => if f = "hole.blit" then some ([7] : Bytes) else none)
          (fun _ _ => 42) [] "hole"
        = .error () := by
  have hget : (fun f => if f = "hole.blit" then some ([7] : Bytes) else none)
      ("hole" ++ ".blit") = some [7] := by decide
  have hnone : (fun f => if f = "hole.blit" then some ([7] : Bytes) else none)
      ("hole" ++ ".anim") = none := by decide
  have h := asset_loaders_abort_or_insert_once
    (fun f => if f = "hole.blit" then some ([7] : Bytes) else none)
    (fun _ _ => 42) [] "hole"
  refine ⟨hget, ?_, ?_, ?_⟩
  · exact (h.2.2.1 [7] hget).1
  · exact (h.2.2.1 [7] hget).2.2
  · exact h.2.1 hnone

end CastleGame
